import Mathlib

/-!
Verification development for the terminal-session lifecycle manager
(TerminalManager and its helpers).  JavaScript strings are embedded as
List Char, machine time (Date.now values) as Int milliseconds, and the
pseudo-terminal, the window and the persistent store appear through
explicit parameters.  Every definition mirrors the corresponding source
function; the regular expressions of the source are embedded as explicit
backtracking matchers over List Char.
-/

namespace AutoClaude

/-! ## Character classes used by the source regular expressions -/

/-- Lower-case an ASCII letter code, as the i flag of a regular expression
does for the characters that occur in the embedded patterns. -/
def lowerN (n : Nat) : Nat := if 65 ≤ n && n ≤ 90 then n + 32 else n

/-- Case-insensitive character comparison. -/
def ciEq (a b : Char) : Bool := lowerN a.toNat == lowerN b.toNat

/-- Whitespace class of the regular expressions (backslash-s): space, tab,
line feed, carriage return, vertical tab, form feed and no-break space. -/
def isWs (c : Char) : Bool :=
  c.toNat == 32 || c.toNat == 9 || c.toNat == 10 || c.toNat == 13 ||
  c.toNat == 11 || c.toNat == 12 || c.toNat == 160

/-- Line terminators: the dot of a regular expression does not match these,
and the dollar anchor in multiline mode matches just before them. -/
def isLineTerm (c : Char) : Bool :=
  c.toNat == 10 || c.toNat == 13 || c.toNat == 8232 || c.toNat == 8233

/-- Identifier token class of the session-id patterns:
letters, digits, underscore and hyphen. -/
def isTokenChar (c : Char) : Bool :=
  (97 ≤ c.toNat && c.toNat ≤ 122) || (65 ≤ c.toNat && c.toNat ≤ 90) ||
  (48 ≤ c.toNat && c.toNat ≤ 57) || c.toNat == 95 || c.toNat == 45

/-- Separator class of the key-value patterns: double quote, whitespace,
colon and equals sign. -/
def isSepChar (c : Char) : Bool :=
  c.toNat == 34 || isWs c || c.toNat == 58 || c.toNat == 61

/-! ## Matching primitives -/

/-- Match a literal character sequence at the current position
(case sensitive); on success return the remaining input. -/
def eatLit : List Char → List Char → Option (List Char)
  | [], s => some s
  | _ :: _, [] => none
  | p :: ps, c :: cs => if p == c then eatLit ps cs else none

/-- Match a literal character sequence at the current position,
case-insensitively; on success return the remaining input. -/
def eatLitCI : List Char → List Char → Option (List Char)
  | [], s => some s
  | _ :: _, [] => none
  | p :: ps, c :: cs => if ciEq p c then eatLitCI ps cs else none

/-- Greedily consume whitespace (backslash-s star). -/
def eatWs (s : List Char) : List Char := s.dropWhile isWs

/-- Consume at least one whitespace character then any further whitespace
(backslash-s plus); the following literals in the embedded patterns never
start with whitespace, so the greedy run is the unique match. -/
def eatWs1 (s : List Char) : Option (List Char) :=
  match s with
  | c :: cs => if isWs c then some (cs.dropWhile isWs) else none
  | [] => none

/-- Consume at least one separator character then any further separators;
the token class that follows is disjoint from the separator class. -/
def eatSep1 (s : List Char) : Option (List Char) :=
  match s with
  | c :: cs => if isSepChar c then some (cs.dropWhile isSepChar) else none
  | [] => none

/-- Capture a token after optional whitespace: backslash-s star followed by
one or more token characters (the capture group of the session patterns). -/
def captureTok (s : List Char) : Option (List Char) :=
  let t := (eatWs s).takeWhile isTokenChar
  if t.isEmpty then none else some t

/-- Try a position-anchored matcher at every position, leftmost first,
as the JavaScript match method does. -/
def scanP (f : List Char → Option (List Char)) : List Char → Option (List Char)
  | [] => f []
  | c :: cs =>
    match f (c :: cs) with
    | some t => some t
    | none => scanP f cs

/-! ## The four session-id patterns (CLAUDE_SESSION_PATTERNS) -/

/-- The colon and capture tail shared by the first and third patterns. -/
def colonTok (s : List Char) : Option (List Char) :=
  match eatLitCI [':'] s with
  | some r => captureTok r
  | none => none

/-- First pattern, anchored at a position: Session optionally followed by
whitespace and ID, then a colon, optional whitespace and a captured token
(case-insensitive).  The optional group backtracks to empty when the colon
does not follow it. -/
def p1At (s : List Char) : Option (List Char) :=
  match eatLitCI "Session".toList s with
  | none => none
  | some r =>
    match eatWs1 r with
    | some r2 =>
      match eatLitCI "ID".toList r2 with
      | some r3 =>
        match colonTok r3 with
        | some t => some t
        | none => colonTok r
      | none => colonTok r
    | none => colonTok r

/-- Key-value pattern, anchored at a position: the key, an optional
underscore or hyphen, the letters id, one or more separators, and a
captured token (case-insensitive).  Shared by the session and
conversation patterns. -/
def kvAt (key : List Char) (s : List Char) : Option (List Char) :=
  match eatLitCI key s with
  | none => none
  | some r =>
    let tail := fun (r' : List Char) =>
      match eatLitCI "id".toList r' with
      | none => none
      | some r2 =>
        match eatSep1 r2 with
        | none => none
        | some r3 =>
          let t := r3.takeWhile isTokenChar
          if t.isEmpty then none else some t
    match r with
    | c :: rest =>
      if c == '_' || c == '-' then
        match tail rest with
        | some t => some t
        | none => tail r
      else tail r
    | [] => tail r

/-- Second pattern: session key-value occurrence. -/
def p2At (s : List Char) : Option (List Char) := kvAt "session".toList s

/-- Third pattern: the phrase Resuming session followed by a colon,
optional whitespace and a captured token (case-insensitive). -/
def p3At (s : List Char) : Option (List Char) :=
  match eatLitCI "Resuming session".toList s with
  | none => none
  | some r => colonTok r

/-- Fourth pattern: conversation key-value occurrence. -/
def p4At (s : List Char) : Option (List Char) := kvAt "conversation".toList s

/-- The ordered pattern list of the source (CLAUDE_SESSION_PATTERNS). -/
def CLAUDE_SESSION_PATTERNS : List (List Char → Option (List Char)) :=
  [p1At, p2At, p3At, p4At]

/-- Return the captured token of the first pattern in the list that
matches anywhere in the chunk. -/
def firstMatch : List (List Char → Option (List Char)) → List Char → Option (List Char)
  | [], _ => none
  | p :: ps, s =>
    match scanP p s with
    | some t => some t
    | none => firstMatch ps s

/-- TerminalManager.extractClaudeSessionId: try the patterns in order,
first match wins. -/
def extractClaudeSessionId (data : List Char) : Option (List Char) :=
  firstMatch CLAUDE_SESSION_PATTERNS data

/-- The pattern order as the specification words it: the explicit Session
label first, then the generic session and conversation key-value
occurrences, then the explicit Resuming session phrase.  Defined for
comparison with the source order. -/
def extractSessionIdSpecOrder (data : List Char) : Option (List Char) :=
  firstMatch [p1At, p2At, p4At, p3At] data

/-! ## The rate-limit pattern (RATE_LIMIT_PATTERN) -/

/-- The lazy capture up to the dollar anchor: the shortest nonempty run of
non-line-terminator characters after which the anchor matches is exactly
the rest of the current line; empty rest of line means no match. -/
def lineTok (s : List Char) : Option (List Char) :=
  let t := s.takeWhile (fun c => !(isLineTerm c))
  if t.isEmpty then none else some t

/-- Backtracking over the greedy one-or-more whitespace run before the
capture: try the longest whitespace split first, as the regular expression
engine does. -/
def wsSplits : Nat → List Char → Option (List Char)
  | 0, _ => none
  | k + 1, s =>
    match lineTok (s.drop (k + 1)) with
    | some t => some t
    | none => wsSplits k s

/-- Whitespace-plus followed by the lazy line capture. -/
def wsThenLine (s : List Char) : Option (List Char) :=
  wsSplits (s.takeWhile isWs).length s

/-- Rate-limit pattern anchored at a position: the literal Limit reached,
optional whitespace, a middle dot or bullet, optional whitespace, the
literal resets, then whitespace and the captured rest of the line. -/
def rateLimitAt (s : List Char) : Option (List Char) :=
  match eatLit "Limit reached".toList s with
  | none => none
  | some r =>
    match eatWs r with
    | c :: r2 =>
      if c == '·' || c == '•' then
        match eatLit "resets".toList (eatWs r2) with
        | none => none
        | some r3 => wsThenLine r3
      else none
    | [] => none

/-- Leftmost match of RATE_LIMIT_PATTERN in a chunk. -/
def rateLimitMatch (data : List Char) : Option (List Char) :=
  scanP rateLimitAt data

/-- JavaScript String.prototype.trim on the captured reset text. -/
def trimL (s : List Char) : List Char :=
  ((s.dropWhile isWs).reverse.dropWhile isWs).reverse

/-! ## Output buffer window -/

/-- JavaScript slice with a negative index: the last n characters of the
string, or the whole string when it is shorter than n. -/
def jsSliceLast (n : Nat) (s : List Char) : List Char :=
  (s.reverse.take n).reverse

/-! ## Session directory scanner -/

/-- One log file of the external per-project session directory:
its file name and its last-modified time in milliseconds. -/
structure LogFile where
  name : List Char
  mtime : Int
deriving DecidableEq

/-- The fixed log extension. -/
def jsonlExt : List Char := ".jsonl".toList

/-- JavaScript String.prototype.endsWith. -/
def endsWithL (sfx l : List Char) : Bool :=
  l.reverse.take sfx.length == sfx.reverse

/-- JavaScript String.prototype.replace with a plain-string pattern:
remove the leftmost occurrence of the pattern. -/
def replaceFirstL (pat : List Char) : List Char → List Char
  | [] => []
  | c :: cs =>
    match eatLit pat (c :: cs) with
    | some rest => rest
    | none => c :: replaceFirstL pat cs

/-- Stable insertion used to model the sort by descending
modification time. -/
def insertByMtime (f : LogFile) : List LogFile → List LogFile
  | [] => [f]
  | g :: gs => if f.mtime ≤ g.mtime then g :: insertByMtime f gs else f :: g :: gs

/-- The sort of the scanner: most recent first. -/
def sortByMtimeDesc : List LogFile → List LogFile
  | [] => []
  | f :: fs => insertByMtime f (sortByMtimeDesc fs)

/-- findClaudeSessionAfter: in the project session directory (none when
the directory does not exist), keep the log files modified strictly after
the cutoff, sort them most recent first, and return the first file name
with the extension removed; absence of the directory or of a qualifying
file yields none. -/
def findClaudeSessionAfter (dir : Option (List LogFile)) (afterTimestamp : Int) :
    Option (List Char) :=
  match dir with
  | none => none
  | some files =>
    let named := files.filter (fun f => endsWithL jsonlExt f.name)
    let recent := named.filter (fun f => f.mtime > afterTimestamp)
    match sortByMtimeDesc recent with
    | [] => none
    | f :: _ => some (replaceFirstL jsonlExt f.name)

/-! ## Data model -/

/-- In-memory record of one live terminal (TerminalProcess); the pty
handle is embedded as the process id of the spawned shell. -/
structure TerminalProcess where
  id : String
  pid : Nat
  isClaudeMode : Bool
  projectPath : Option String
  cwd : String
  claudeSessionId : Option (List Char)
  outputBuffer : List Char
  title : String
deriving DecidableEq

/-- Persisted session record (TerminalSession of the session store). -/
structure TerminalSession where
  id : String
  title : String
  cwd : String
  projectPath : String
  isClaudeMode : Bool
  claudeSessionId : Option (List Char)
  outputBuffer : List Char
  createdAt : Int
  lastActiveAt : Int
deriving DecidableEq

/-- One-way notifications sent to the renderer window. -/
inductive Notification where
  | output (id : String) (data : List Char)
  | exited (id : String) (code : Int)
  | claudeSession (id : String) (sessionId : List Char)
  | rateLimit (id : String) (resetTime : List Char) (detectedAt : Int)
  | titleChange (id : String) (title : String)
deriving DecidableEq

/-- Result shape of create and destroy. -/
structure OpResult where
  success : Bool
  error : Option String
deriving DecidableEq

/-! ## Durable session store.

Modelled from the spec: the store implementation (terminal-session-store)
is not among the shown sources; section 6 gives its narrow contract and
section 5 fixes its semantics as idempotent upserts keyed by the pair of
project path and terminal id, and idempotent removals. -/

/-- Modelled from the spec: saveSession is an idempotent upsert keyed by
projectPath and id. -/
def saveSession (st : List TerminalSession) (s : TerminalSession) :
    List TerminalSession :=
  if (st.find? (fun u => u.projectPath == s.projectPath && u.id == s.id)).isSome then
    st.map (fun u => if u.projectPath == s.projectPath && u.id == s.id then s else u)
  else st ++ [s]

/-- Modelled from the spec: getSession looks a record up by projectPath
and id. -/
def getSession (st : List TerminalSession) (p id : String) : Option TerminalSession :=
  st.find? (fun u => u.projectPath == p && u.id == id)

/-- Modelled from the spec: removeSession is an idempotent removal by
projectPath and id. -/
def removeSession (st : List TerminalSession) (p id : String) : List TerminalSession :=
  st.filter (fun u => !(u.projectPath == p && u.id == id))

/-- Modelled from the spec: updateClaudeSessionId rewrites the assistant
session id of the record with the given key, if present. -/
def updateClaudeSessionId (st : List TerminalSession) (p id : String)
    (sid : List Char) : List TerminalSession :=
  st.map (fun u =>
    if u.projectPath == p && u.id == id then { u with claudeSessionId := some sid } else u)

/-! ## Manager state -/

/-- The whole mutable state of a TerminalManager instance, together with
the spawned-process bookkeeping of the pty adapter (livePids, nextPid) and
the pending polling captures scheduled by invokeClaude and restore. -/
structure ManagerState where
  terminals : List TerminalProcess
  store : List TerminalSession
  rateLimitNotifiedAt : List (String × Int)
  saveTimerActive : Bool
  livePids : List Nat
  nextPid : Nat
  pendingCaptures : List (String × String × Int)
deriving DecidableEq

/-- Map lookup in the terminal registry. -/
def findTerminal (ts : List TerminalProcess) (id : String) : Option TerminalProcess :=
  ts.find? (fun t => t.id == id)

/-- Rewrite the registry record with the given id in place. -/
def updateTerminal (ts : List TerminalProcess) (id : String)
    (f : TerminalProcess → TerminalProcess) : List TerminalProcess :=
  ts.map (fun t => if t.id == id then f t else t)

/-- Lookup in the rate-limit cool-down map. -/
def lookupRL (m : List (String × Int)) (id : String) : Option Int :=
  (m.find? (fun p => p.1 == id)).map (fun p => p.2)

/-- Map set in the rate-limit cool-down map. -/
def setRL (m : List (String × Int)) (id : String) (t : Int) : List (String × Int) :=
  if (m.find? (fun p => p.1 == id)).isSome then
    m.map (fun p => if p.1 == id then (p.1, t) else p)
  else m ++ [(id, t)]

/-- The persisted snapshot of a live terminal, as persistAllSessions
builds it: both timestamps are refreshed to the current time. -/
def sessionSnapshot (t : TerminalProcess) (p : String) (now : Int) : TerminalSession :=
  { id := t.id, title := t.title, cwd := t.cwd, projectPath := p,
    isClaudeMode := t.isClaudeMode, claudeSessionId := t.claudeSessionId,
    outputBuffer := t.outputBuffer, createdAt := now, lastActiveAt := now }

/-- persistAllSessions: save every live terminal that has a project path. -/
def persistAllSessions (σ : ManagerState) (now : Int) : ManagerState :=
  { σ with
    store := σ.terminals.foldl (fun st t =>
      match t.projectPath with
      | some p => saveSession st (sessionSnapshot t p now)
      | none => st) σ.store }

/-! ## Commands -/

/-- Options of the create command. -/
structure CreateOptions where
  id : String
  cwd : Option String
  cols : Nat
  rows : Nat
  projectPath : Option String
deriving DecidableEq

/-- TerminalManager.create.  A duplicate id returns success without
spawning; spawnErr carries the message of a spawn failure, none meaning
the spawn succeeds with the next fresh pid; on success the terminal is
registered and, when a project path was given, an initial session record
is persisted. -/
def create (σ : ManagerState) (o : CreateOptions) (homedir : String) (now : Int)
    (spawnErr : Option String) : ManagerState × OpResult :=
  if (findTerminal σ.terminals o.id).isSome then (σ, ⟨true, none⟩)
  else
    match spawnErr with
    | some e => (σ, ⟨false, some e⟩)
    | none =>
      let terminalCwd := o.cwd.getD homedir
      let t : TerminalProcess :=
        { id := o.id, pid := σ.nextPid, isClaudeMode := false,
          projectPath := o.projectPath, cwd := terminalCwd,
          claudeSessionId := none, outputBuffer := [],
          title := "Terminal " ++ toString (σ.terminals.length + 1) }
      let σ1 := { σ with
        terminals := σ.terminals ++ [t],
        livePids := σ.nextPid :: σ.livePids,
        nextPid := σ.nextPid + 1 }
      let σ2 :=
        match o.projectPath with
        | some p =>
          let initial : TerminalSession :=
            { id := o.id, title := t.title, cwd := terminalCwd, projectPath := p,
              isClaudeMode := false, claudeSessionId := none, outputBuffer := [],
              createdAt := now, lastActiveAt := now }
          { σ1 with store := saveSession σ1.store initial }
        | none => σ1
      (σ2, ⟨true, none⟩)

/-- TerminalManager.destroy.  killErr carries the message thrown by the
pty kill call, none meaning it returns normally; a thrown kill error is
caught and reported as a failed result, leaving the in-memory record in
place (the delete line is not reached). -/
def destroy (σ : ManagerState) (id : String) (killErr : Option String) :
    ManagerState × OpResult :=
  match findTerminal σ.terminals id with
  | none => (σ, ⟨false, some "Terminal not found"⟩)
  | some t =>
    let store1 :=
      match t.projectPath with
      | some p => removeSession σ.store p id
      | none => σ.store
    match killErr with
    | none =>
      let σ1 := { σ with
        store := store1,
        terminals := σ.terminals.filter (fun u => !(u.id == id)),
        livePids := σ.livePids.filter (fun q => !(q == t.pid)) }
      (σ1, ⟨true, none⟩)
    | some e => ({ σ with store := store1 }, ⟨false, some e⟩)

/-- Session-id half of the onData handler: when the terminal is in
assistant mode with no session id yet, run the extractor; on a match adopt
the id, write it through to the store when a project path exists, and
notify the window when it is present. -/
def sidStep (id : String) (t : TerminalProcess) (store : List TerminalSession)
    (data : List Char) (win : Bool) :
    Option (List Char) × List TerminalSession × List Notification :=
  if t.isClaudeMode && t.claudeSessionId.isNone then
    match extractClaudeSessionId data with
    | some s =>
      (some s,
       (match t.projectPath with
        | some p => updateClaudeSessionId store p id s
        | none => store),
       if win then [Notification.claudeSession id s] else [])
    | none => (t.claudeSessionId, store, [])
  else (t.claudeSessionId, store, [])

/-- Rate-limit half of the onData handler: when the terminal is in
assistant mode and the chunk matches the rate-limit pattern, apply the
sixty-second cool-down per terminal id; the cool-down time is recorded
whenever it has expired, and the window is notified when present. -/
def rateStep (id : String) (t : TerminalProcess) (rl : List (String × Int))
    (data : List Char) (now : Int) (win : Bool) :
    List (String × Int) × List Notification :=
  if t.isClaudeMode then
    match rateLimitMatch data with
    | some raw =>
      let resetTime := trimL raw
      let lastNotified := (lookupRL rl id).getD 0
      if now - lastNotified > 60000 then
        (setRL rl id now,
         if win then [Notification.rateLimit id resetTime now] else [])
      else (rl, [])
    | none => (rl, [])
  else (rl, [])

/-- The onData handler wired by create: append the chunk to the output
buffer keeping the last 100000 characters, run the session-id and
rate-limit steps, and forward the raw chunk to the window. -/
def onData (σ : ManagerState) (id : String) (data : List Char) (now : Int)
    (win : Bool) : ManagerState × List Notification :=
  match findTerminal σ.terminals id with
  | none => (σ, [])
  | some t =>
    let r1 := sidStep id t σ.store data win
    let r2 := rateStep id t σ.rateLimitNotifiedAt data now win
    ({ σ with
        terminals := updateTerminal σ.terminals id (fun u =>
          { u with outputBuffer := jsSliceLast 100000 (t.outputBuffer ++ data),
                   claudeSessionId := r1.1 }),
        store := r1.2.1,
        rateLimitNotifiedAt := r2.1 },
     r1.2.2 ++ r2.2 ++ (if win then [Notification.output id data] else []))

/-- Iterate onData over a sequence of output chunks, each with its own
arrival time and window presence. -/
def runChunks (σ : ManagerState) (id : String)
    (evs : List (List Char × Int × Bool)) : ManagerState :=
  evs.foldl (fun s e => (onData s id e.1 e.2.1 e.2.2).1) σ

/-- TerminalManager.invokeClaude: on a known id, set assistant mode, clear
the session id, write the launch command, notify the title change, update
the persisted mode flag, and schedule polling capture anchored at the
invocation time. -/
def invokeClaude (σ : ManagerState) (id : String) (cwd : Option String)
    (now : Int) (win : Bool) : ManagerState × List Notification :=
  match findTerminal σ.terminals id with
  | none => (σ, [])
  | some t =>
    let capturePath := (cwd.orElse (fun _ => t.projectPath)).getD t.cwd
    let store1 :=
      match t.projectPath with
      | some p =>
        match getSession σ.store p id with
        | some s => saveSession σ.store { s with isClaudeMode := true, lastActiveAt := now }
        | none => σ.store
      | none => σ.store
    ({ σ with
        terminals := updateTerminal σ.terminals id (fun u =>
          { u with isClaudeMode := true, claudeSessionId := none }),
        store := store1,
        pendingCaptures := σ.pendingCaptures ++ [(id, capturePath, now)] },
     if win then [Notification.titleChange id "Claude"] else [])

/-- TerminalManager.resumeClaude: on a known id, set assistant mode; with
an operator-supplied session id, adopt it and write the resume command,
otherwise write the continue command; notify the title change. -/
def resumeClaude (σ : ManagerState) (id : String) (sessionId : Option (List Char))
    (win : Bool) : ManagerState × List Notification :=
  match findTerminal σ.terminals id with
  | none => (σ, [])
  | some _ =>
    ({ σ with
        terminals := updateTerminal σ.terminals id (fun u =>
          match sessionId with
          | some sid => { u with isClaudeMode := true, claudeSessionId := some sid }
          | none => { u with isClaudeMode := true } ) },
     if win then [Notification.titleChange id "Claude"] else [])

/-- Result shape of restore: on success the persisted output buffer is
returned to the caller for replay. -/
structure RestoreResult where
  success : Bool
  error : Option String
  outputBuffer : Option (List Char)
deriving DecidableEq

/-- TerminalManager.restore, entered at time t0: create the base terminal
from the persisted record, adopt its title, and, when the session was in
assistant mode, wait the fixed one-second settle delay, set assistant mode
and the known session id, take the start timestamp (after the delay, so it
equals t0 + 1000), write the resume command, notify the title change, and
when no session id is known schedule polling capture anchored at that
start timestamp. -/
def restore (σ : ManagerState) (s : TerminalSession) (cols rows : Nat) (t0 : Int)
    (homedir : String) (spawnErr : Option String) (win : Bool) :
    ManagerState × List Notification × RestoreResult :=
  let created := create σ
    { id := s.id, cwd := some s.cwd, cols := cols, rows := rows,
      projectPath := some s.projectPath } homedir t0 spawnErr
  let σ1 := created.1
  if created.2.success = false then (σ1, [], ⟨false, created.2.error, none⟩)
  else
    match findTerminal σ1.terminals s.id with
    | none => (σ1, [], ⟨false, some "Terminal not found after creation", none⟩)
    | some _ =>
      let σ2 := { σ1 with
        terminals := updateTerminal σ1.terminals s.id (fun u => { u with title := s.title }) }
      if s.isClaudeMode then
        let startTime := t0 + 1000
        let σ3 := { σ2 with
          terminals := updateTerminal σ2.terminals s.id (fun u =>
            { u with isClaudeMode := true, claudeSessionId := s.claudeSessionId }) }
        let projectDir := if s.cwd == "" then s.projectPath else s.cwd
        let σ4 :=
          if s.claudeSessionId.isNone && !(projectDir == "") then
            { σ3 with pendingCaptures := σ3.pendingCaptures ++ [(s.id, projectDir, startTime)] }
          else σ3
        (σ4, if win then [Notification.titleChange s.id "Claude"] else [],
         ⟨true, none, some s.outputBuffer⟩)
      else (σ2, [], ⟨true, none, some s.outputBuffer⟩)

/-- TerminalManager.killAll: persist every live session, cancel the
periodic persistence timer, best-effort kill every pty process with each
failure swallowed in isolation (killFails tells which pids throw on kill),
then clear the registry.  The rate-limit cool-down map is not touched. -/
def killAll (σ : ManagerState) (now : Int) (killFails : Nat → Bool) : ManagerState :=
  let σ1 := persistAllSessions σ now
  let killed := (σ1.terminals.filter (fun t => !(killFails t.pid))).map (fun t => t.pid)
  { σ1 with
    saveTimerActive := false,
    terminals := [],
    livePids := σ1.livePids.filter (fun q => !(killed.contains q)) }

/-- One probe of captureClaudeSessionId, applied to the manager state:
abort silently when the terminal is gone, has left assistant mode, or
already has a session id; otherwise scan the directory for a session file
newer than the start timestamp and, on success, adopt, persist and notify
exactly as the output-extraction path does. -/
def checkForSession (σ : ManagerState) (terminalId : String) (startTime : Int)
    (dir : Option (List LogFile)) (win : Bool) : ManagerState × List Notification :=
  match findTerminal σ.terminals terminalId with
  | none => (σ, [])
  | some t =>
    if !t.isClaudeMode then (σ, [])
    else
      match t.claudeSessionId with
      | some _ => (σ, [])
      | none =>
        match findClaudeSessionAfter dir startTime with
        | some sid =>
          let store1 :=
            match t.projectPath with
            | some p => updateClaudeSessionId σ.store p terminalId sid
            | none => σ.store
          ({ σ with
              terminals := updateTerminal σ.terminals terminalId (fun u =>
                { u with claudeSessionId := some sid }),
              store := store1 },
           if win then [Notification.claudeSession terminalId sid] else [])
        | none => (σ, [])

/-! ## Standalone model of the polling-capture schedule -/

/-- What one probe of the capture loop observes: whether the terminal
still exists and, if so, its assistant mode and known session id, plus the
session directory contents at that probe. -/
structure ProbeWorld where
  termAlive : Option (Bool × Option (List Char))
  dir : Option (List LogFile)

/-- The outcome of a single probe. -/
inductive ProbeAction where
  | abort
  | adopt (sid : List Char)
  | notFound
deriving DecidableEq

/-- The attempt cap of captureClaudeSessionId. -/
def maxAttempts : Nat := 10

/-- The decision a probe takes, mirroring the body of checkForSession:
abort when the terminal is gone, out of assistant mode, or already has a
session id; otherwise adopt a session file newer than the start timestamp
or report not found. -/
def captureStep (w : ProbeWorld) (startTime : Int) : ProbeAction :=
  match w.termAlive with
  | none => ProbeAction.abort
  | some (isClaude, sid) =>
    if !isClaude then ProbeAction.abort
    else
      match sid with
      | some _ => ProbeAction.abort
      | none =>
        match findClaudeSessionAfter w.dir startTime with
        | some s => ProbeAction.adopt s
        | none => ProbeAction.notFound

/-- The probe schedule of captureClaudeSessionId: a is the number of
attempts already made, tcur the wall-clock time of the next probe.  Each
entry of the returned trace is an attempt number, its probe time, and its
action; a probe that reports not found reschedules one second later while
fewer than maxAttempts attempts were made. -/
def captureGoT (world : Nat → ProbeWorld) (startTime : Int) (a : Nat) (tcur : Int) :
    List (Nat × Int × ProbeAction) :=
  if h : a < maxAttempts then
    match captureStep (world (a + 1)) startTime with
    | ProbeAction.notFound =>
      (a + 1, tcur, ProbeAction.notFound) :: captureGoT world startTime (a + 1) (tcur + 1000)
    | act => [(a + 1, tcur, act)]
  else []
termination_by maxAttempts - a
decreasing_by omega

/-- TerminalManager.captureClaudeSessionId as a probe trace: nothing is
scheduled when the terminal is already gone at scheduling time; otherwise
the first probe fires two seconds after the start timestamp. -/
def captureClaudeSessionId (world : Nat → ProbeWorld) (startTime : Int) :
    List (Nat × Int × ProbeAction) :=
  if (world 0).termAlive.isSome then captureGoT world startTime 0 (startTime + 2000)
  else []

/-! ## Sample fixtures for concrete instantiations -/

/-- A sample live terminal. -/
def sampleTerminal : TerminalProcess :=
  { id := "t1", pid := 0, isClaudeMode := false, projectPath := some "/p",
    cwd := "/p", claudeSessionId := none, outputBuffer := [], title := "Terminal 1" }

/-- The sample terminal in assistant mode. -/
def claudeTerminal : TerminalProcess :=
  { sampleTerminal with isClaudeMode := true }

/-- The sample terminal in assistant mode with a captured session id. -/
def capturedTerminal : TerminalProcess :=
  { claudeTerminal with claudeSessionId := some ['s', '1'] }

/-- A sample manager state with one live terminal. -/
def sampleState : ManagerState :=
  { terminals := [sampleTerminal], store := [], rateLimitNotifiedAt := [],
    saveTimerActive := true, livePids := [0], nextPid := 1, pendingCaptures := [] }

/-- The sample state with its terminal in assistant mode. -/
def claudeState : ManagerState :=
  { sampleState with terminals := [claudeTerminal] }

/-- The sample state with a captured session id. -/
def capturedState : ManagerState :=
  { sampleState with terminals := [capturedTerminal] }

/-- The sample state with a nonempty rate-limit cool-down map. -/
def rlState : ManagerState :=
  { sampleState with rateLimitNotifiedAt := [("t1", 5)] }

/-- A state with no terminals at all. -/
def emptyState : ManagerState :=
  { terminals := [], store := [], rateLimitNotifiedAt := [],
    saveTimerActive := true, livePids := [], nextPid := 0, pendingCaptures := [] }

/-- A persisted assistant-mode session with no known session id. -/
def sampleSession : TerminalSession :=
  { id := "t1", title := "My title", cwd := "/p", projectPath := "/p",
    isClaudeMode := true, claudeSessionId := none, outputBuffer := ['h', 'i'],
    createdAt := 0, lastActiveAt := 0 }

/-- A probe world whose terminal stays alive in assistant mode with no
session id and whose directory is empty. -/
def sampleWorld : Nat → ProbeWorld := fun _ => ⟨some (true, none), some []⟩

/-- Sample create options. -/
def sampleOptions : CreateOptions :=
  { id := "t1", cwd := some "/p", cols := 80, rows := 24, projectPath := some "/p" }

/-! ## Lemmas about the buffer window -/

lemma take_append_take (n : Nat) (x y : List Char) :
    (x ++ y.take n).take n = (x ++ y).take n := by
  rw [List.take_append_eq_append_take, List.take_append_eq_append_take, List.take_take]
  have h : (n - x.length) ⊓ n = n - x.length := by omega
  rw [h]

lemma jsSliceLast_append (n : Nat) (a b : List Char) :
    jsSliceLast n (jsSliceLast n a ++ b) = jsSliceLast n (a ++ b) := by
  unfold jsSliceLast
  rw [List.reverse_append, List.reverse_reverse, List.reverse_append,
    take_append_take]

lemma jsSliceLast_length_le (n : Nat) (s : List Char) :
    (jsSliceLast n s).length ≤ n := by
  simp only [jsSliceLast, List.length_reverse, List.length_take]
  exact Nat.min_le_left _ _

lemma foldl_slice (n : Nat) (ds : List (List Char)) :
    ∀ pre : List Char,
      ds.foldl (fun b d => jsSliceLast n (b ++ d)) (jsSliceLast n pre)
        = jsSliceLast n (pre ++ ds.flatten) := by
  induction ds with
  | nil => intro pre; simp
  | cons d ds ih =>
    intro pre
    simp only [List.foldl_cons, List.flatten_cons]
    rw [jsSliceLast_append, ih (pre ++ d), List.append_assoc]

/-! ## Lemmas about the registry -/

lemma findTerminal_update (ts : List TerminalProcess) (id : String)
    (f : TerminalProcess → TerminalProcess) (hf : ∀ t, (f t).id = t.id) :
    findTerminal (updateTerminal ts id f) id = (findTerminal ts id).map f := by
  induction ts with
  | nil => rfl
  | cons t ts ih =>
    simp only [updateTerminal, List.map_cons, findTerminal] at *
    cases h : (t.id == id) with
    | false =>
      rw [if_neg (by simp [h])]
      rw [List.find?_cons_of_neg _ (by simp [h]), List.find?_cons_of_neg _ (by simp [h])]
      exact ih
    | true =>
      rw [if_pos (by simp [h])]
      rw [List.find?_cons_of_pos _ (by simp [hf t, h]), List.find?_cons_of_pos _ (by simp [h])]
      rfl

lemma findTerminal_filter_self (ts : List TerminalProcess) (id : String) :
    findTerminal (ts.filter (fun u => !(u.id == id))) id = none := by
  induction ts with
  | nil => rfl
  | cons t ts ih =>
    by_cases h : t.id = id
    · have hp : (!(t.id == id)) = false := by simp [h]
      simp only [List.filter_cons, hp, Bool.false_eq_true, if_false]
      exact ih
    · have hp : (!(t.id == id)) = true := by simp [h]
      simp only [List.filter_cons, hp, if_true]
      unfold findTerminal
      rw [List.find?_cons_of_neg _ (by simp [h])]
      exact ih

lemma findTerminal_append_single (ts : List TerminalProcess) (t : TerminalProcess)
    (id : String) (hnone : findTerminal ts id = none) (hid : t.id = id) :
    findTerminal (ts ++ [t]) id = some t := by
  simp only [findTerminal, List.find?_append] at *
  rw [hnone]
  simp [hid]

/-! ## Lemmas about the onData handler -/

lemma onData_find (σ : ManagerState) (id : String) (data : List Char) (now : Int)
    (win : Bool) (t : TerminalProcess) (h : findTerminal σ.terminals id = some t) :
    findTerminal (onData σ id data now win).1.terminals id =
      some { t with outputBuffer := jsSliceLast 100000 (t.outputBuffer ++ data),
                    claudeSessionId := (sidStep id t σ.store data win).1 } := by
  unfold onData
  rw [h]
  simp only
  have key := findTerminal_update σ.terminals id
    (fun u => { u with outputBuffer := jsSliceLast 100000 (t.outputBuffer ++ data),
                       claudeSessionId := (sidStep id t σ.store data win).1 })
    (fun _ => rfl)
  rw [key, h]
  rfl

lemma runChunks_buffer (id : String) :
    ∀ (evs : List (List Char × Int × Bool)) (σ : ManagerState) (t : TerminalProcess),
      findTerminal σ.terminals id = some t →
      ∃ t', findTerminal (runChunks σ id evs).terminals id = some t' ∧
        t'.outputBuffer
          = evs.foldl (fun b e => jsSliceLast 100000 (b ++ e.1)) t.outputBuffer := by
  intro evs
  induction evs with
  | nil => intro σ t h; exact ⟨t, h, rfl⟩
  | cons e evs ih =>
    intro σ t h
    have h1 := onData_find σ id e.1 e.2.1 e.2.2 t h
    obtain ⟨t', hfind, hbuf⟩ := ih (onData σ id e.1 e.2.1 e.2.2).1 _ h1
    refine ⟨t', ?_, ?_⟩
    · simpa [runChunks, List.foldl_cons] using hfind
    · simpa using hbuf

/-- Claim C1: for every terminal and every sequence of output chunks
delivered to it (each with its arrival time and window presence), the
outputBuffer after processing the sequence equals the trailing slice of
at most 100000 characters of the concatenation of all chunks received,
oldest characters dropped first, and its length is at most 100000.
Instantiating the sequence at every prefix of a delivery gives the
after-every-append reading of the claim. -/
theorem c1_outputBuffer_trailing_window
    (σ : ManagerState) (id : String) (t : TerminalProcess)
    (evs : List (List Char × Int × Bool))
    (hfind : findTerminal σ.terminals id = some t)
    (hbuf : t.outputBuffer = []) :
    ∃ t', findTerminal (runChunks σ id evs).terminals id = some t' ∧
      t'.outputBuffer = jsSliceLast 100000 (evs.map (fun e => e.1)).flatten ∧
      t'.outputBuffer.length ≤ 100000 := by
  obtain ⟨t', hfind', hbuf'⟩ := runChunks_buffer id evs σ t hfind
  have h1 := foldl_slice 100000 (evs.map (fun e => e.1)) []
  rw [List.foldl_map] at h1
  have hb : t'.outputBuffer = jsSliceLast 100000 (evs.map (fun e => e.1)).flatten := by
    rw [hbuf', hbuf]
    simpa using h1
  exact ⟨t', hfind', hb, hb ▸ jsSliceLast_length_le _ _⟩

/-! ## Lemmas about the session store -/

lemma getSession_map_replace_ne (st : List TerminalSession) (s : TerminalSession)
    (p id : String) (hne : ¬(s.projectPath = p ∧ s.id = id)) :
    getSession (st.map (fun u =>
      if u.projectPath == s.projectPath && u.id == s.id then s else u)) p id
      = getSession st p id := by
  have hs' : (s.projectPath == p && s.id == id) = false := by
    cases hb : (s.projectPath == p && s.id == id) with
    | false => rfl
    | true =>
      exfalso; apply hne
      simp only [Bool.and_eq_true, beq_iff_eq] at hb
      exact hb
  induction st with
  | nil => rfl
  | cons u st ih =>
    simp only [List.map_cons, getSession] at *
    by_cases hk : u.projectPath = s.projectPath ∧ u.id = s.id
    · have h1 : (u.projectPath == s.projectPath && u.id == s.id) = true := by
        simp [hk.1, hk.2]
      simp only [h1, if_true]
      have hpu : (u.projectPath == p && u.id == id) = false := by
        rw [hk.1, hk.2]; exact hs'
      rw [List.find?_cons_of_neg _ (by simp [hs']), List.find?_cons_of_neg _ (by simp [hpu])]
      exact ih
    · have h1 : (u.projectPath == s.projectPath && u.id == s.id) = false := by
        cases hb : (u.projectPath == s.projectPath && u.id == s.id) with
        | false => rfl
        | true =>
          exfalso; apply hk
          simp only [Bool.and_eq_true, beq_iff_eq] at hb
          exact hb
      simp only [h1, Bool.false_eq_true, if_false]
      cases hq : (u.projectPath == p && u.id == id) with
      | false =>
        rw [List.find?_cons_of_neg _ (by simp [hq]), List.find?_cons_of_neg _ (by simp [hq])]
        exact ih
      | true =>
        rw [List.find?_cons_of_pos _ (by exact hq), List.find?_cons_of_pos _ (by exact hq)]

lemma getSession_map_replace_eq (st : List TerminalSession) (s : TerminalSession) :
    (getSession st s.projectPath s.id).isSome →
    getSession (st.map (fun u =>
      if u.projectPath == s.projectPath && u.id == s.id then s else u))
      s.projectPath s.id = some s := by
  induction st with
  | nil => intro h; simp [getSession] at h
  | cons u st ih =>
    intro h
    simp only [List.map_cons, getSession] at *
    cases hq : (u.projectPath == s.projectPath && u.id == s.id) with
    | true =>
      simp only [hq, if_true]
      rw [List.find?_cons_of_pos _ (by simp)]
    | false =>
      simp only [hq, Bool.false_eq_true, if_false]
      rw [List.find?_cons_of_neg _ (by simp [hq])] at h
      rw [List.find?_cons_of_neg _ (by simp [hq])]
      exact ih h

lemma getSession_save (st : List TerminalSession) (s : TerminalSession) (p id : String) :
    getSession (saveSession st s) p id =
      if s.projectPath = p ∧ s.id = id then some s else getSession st p id := by
  unfold saveSession
  by_cases hne : s.projectPath = p ∧ s.id = id
  · rw [if_pos hne]
    obtain ⟨hp, hid⟩ := hne
    subst hp; subst hid
    cases hex : (st.find? (fun u => u.projectPath == s.projectPath && u.id == s.id)).isSome with
    | true =>
      simp only [hex, if_true]
      exact getSession_map_replace_eq st s hex
    | false =>
      simp only [hex, Bool.false_eq_true, if_false]
      have hnone : getSession st s.projectPath s.id = none := by
        unfold getSession
        cases hf : st.find? (fun u => u.projectPath == s.projectPath && u.id == s.id) with
        | none => rfl
        | some v => rw [hf] at hex; simp at hex
      unfold getSession at *
      rw [List.find?_append, hnone]
      simp
  · rw [if_neg hne]
    cases hex : (st.find? (fun u => u.projectPath == s.projectPath && u.id == s.id)).isSome with
    | true =>
      simp only [hex, if_true]
      exact getSession_map_replace_ne st s p id hne
    | false =>
      simp only [hex, Bool.false_eq_true, if_false]
      unfold getSession
      rw [List.find?_append]
      have hs' : ((fun u => u.projectPath == p && u.id == id) s) = false := by
        cases hb : (s.projectPath == p && s.id == id) with
        | false => exact hb
        | true =>
          exfalso; apply hne
          simp only [Bool.and_eq_true, beq_iff_eq] at hb
          exact hb
      rw [List.find?_cons_of_neg _ (by simp [hs'])]
      simp

lemma getSession_remove (st : List TerminalSession) (p id : String) :
    getSession (removeSession st p id) p id = none := by
  induction st with
  | nil => rfl
  | cons u st ih =>
    unfold removeSession getSession at *
    cases hq : (u.projectPath == p && u.id == id) with
    | true =>
      simp only [List.filter_cons, hq, Bool.not_true, Bool.false_eq_true, if_false]
      exact ih
    | false =>
      simp only [List.filter_cons, hq, Bool.not_false, if_true]
      rw [List.find?_cons_of_neg _ (by simp [hq])]
      exact ih

/-! ## Lemma about the rate-limit cool-down map -/

lemma lookupRL_set (m : List (String × Int)) (id : String) (t : Int) :
    lookupRL (setRL m id t) id = some t := by
  unfold setRL
  cases hex : (m.find? (fun p => p.1 == id)).isSome with
  | true =>
    simp only [hex, if_true]
    induction m with
    | nil => simp [List.find?] at hex
    | cons q m ih =>
      cases hq : (q.1 == id) with
      | true =>
        unfold lookupRL
        simp only [List.map_cons, hq, if_true]
        rw [List.find?_cons_of_pos _ (by simpa using hq)]
        rfl
      | false =>
        unfold lookupRL at *
        simp only [List.map_cons, hq, Bool.false_eq_true, if_false]
        rw [List.find?_cons_of_neg _ (by simp [hq])]
        rw [List.find?_cons_of_neg _ (by simp [hq])] at hex
        exact ih hex
  | false =>
    simp only [hex, Bool.false_eq_true, if_false]
    unfold lookupRL at *
    rw [List.find?_append]
    have hnone : m.find? (fun p => p.1 == id) = none := by
      cases hf : m.find? (fun p => p.1 == id) with
      | none => rfl
      | some v => rw [hf] at hex; simp at hex
    rw [hnone]
    simp [List.find?]

/-- Witness for claim C1 at a concrete state and two concrete chunks. -/
theorem c1_outputBuffer_trailing_window_witness :
    ∃ t', findTerminal (runChunks sampleState "t1"
        [("ab".toList, 0, true), ("cd".toList, 1, true)]).terminals "t1" = some t' ∧
      t'.outputBuffer = jsSliceLast 100000
        ([("ab".toList, 0, true), ("cd".toList, 1, true)].map (fun e => e.1)).flatten ∧
      t'.outputBuffer.length ≤ 100000 :=
  c1_outputBuffer_trailing_window sampleState "t1" sampleTerminal _ rfl rfl

/-- Claim C2 counterexample: on the sample state, destroy of a known id
with a throwing pty kill reports failure (carrying the thrown message),
contradicting the claim that once lookup succeeds the operation always
reports success to the caller even if pty termination throws. -/
theorem c2_destroy_counterexample :
    (destroy sampleState "t1" (some "kill failed")).2
      = ⟨false, some "kill failed"⟩ ∧
    ¬ ((destroy sampleState "t1" (some "kill failed")).2.success = true) := by
  constructor
  · rfl
  · decide

/-- Claim C2 amended: destroy on an unknown id returns a NotFound-style
failure and mutates no state; on a known id it removes the persisted
record (when the terminal has a project path) and then attempts pty
termination: on success it removes the in-memory record and reports
success, while a throwing termination is caught and reported as a failure
carrying the thrown message, and the in-memory record is then not
removed. -/
theorem c2_destroy_behaviour
    (σ : ManagerState) (id : String) (killErr : Option String) :
    (findTerminal σ.terminals id = none →
      destroy σ id killErr = (σ, ⟨false, some "Terminal not found"⟩)) ∧
    (∀ t, findTerminal σ.terminals id = some t →
      (∀ p, t.projectPath = some p →
        getSession (destroy σ id killErr).1.store p id = none) ∧
      (killErr = none →
        (destroy σ id killErr).2 = ⟨true, none⟩ ∧
        findTerminal (destroy σ id killErr).1.terminals id = none) ∧
      (∀ e, killErr = some e →
        (destroy σ id killErr).2 = ⟨false, some e⟩ ∧
        findTerminal (destroy σ id killErr).1.terminals id = some t)) := by
  constructor
  · intro h
    unfold destroy
    rw [h]
  · intro t ht
    refine ⟨?_, ?_, ?_⟩
    · intro p hp
      unfold destroy
      rw [ht]
      dsimp only
      rw [hp]
      cases killErr with
      | none => exact getSession_remove σ.store p id
      | some e => exact getSession_remove σ.store p id
    · intro hk
      subst hk
      unfold destroy
      rw [ht]
      exact ⟨rfl, findTerminal_filter_self σ.terminals id⟩
    · intro e hk
      subst hk
      unfold destroy
      rw [ht]
      exact ⟨rfl, ht⟩

/-- Witness for the amended claim C2 at the sample state. -/
theorem c2_destroy_behaviour_witness :
    (destroy sampleState "t1" none).2 = ⟨true, none⟩ ∧
    findTerminal (destroy sampleState "t1" none).1.terminals "t1" = none :=
  ((c2_destroy_behaviour sampleState "t1" none).2 sampleTerminal rfl).2.1 rfl

/-- Claim C3: once the assistant session id of a terminal is populated,
neither automatic discovery path changes it: the output-extraction path of
onData keeps it, and a directory-scan probe aborts without touching any
state; invokeClaude clears it and only an explicit resumeClaude with an
operator-supplied id overwrites it. -/
theorem c3_session_id_set_once
    (σ : ManagerState) (id : String) (t : TerminalProcess) (s : List Char)
    (hfind : findTerminal σ.terminals id = some t)
    (hsid : t.claudeSessionId = some s) :
    (∀ data now win, ∃ t',
      findTerminal (onData σ id data now win).1.terminals id = some t' ∧
      t'.claudeSessionId = some s) ∧
    (∀ startTime dir win,
      checkForSession σ id startTime dir win = (σ, [])) ∧
    (∀ cwd now win, ∃ t',
      findTerminal (invokeClaude σ id cwd now win).1.terminals id = some t' ∧
      t'.claudeSessionId = none) ∧
    (∀ sid win, ∃ t',
      findTerminal (resumeClaude σ id (some sid) win).1.terminals id = some t' ∧
      t'.claudeSessionId = some sid) := by
  refine ⟨?_, ?_, ?_, ?_⟩
  · intro data now win
    refine ⟨_, onData_find σ id data now win t hfind, ?_⟩
    simp only [sidStep, hsid, Option.isNone_some, Bool.and_false, Bool.false_eq_true,
      if_false]
  · intro startTime dir win
    unfold checkForSession
    rw [hfind]
    cases hc : t.isClaudeMode with
    | false => simp [hc]
    | true => simp [hc, hsid]
  · intro cwd now win
    refine ⟨{ t with isClaudeMode := true, claudeSessionId := none }, ?_, rfl⟩
    unfold invokeClaude
    rw [hfind]
    dsimp only
    have key := findTerminal_update σ.terminals id
      (fun u => { u with isClaudeMode := true, claudeSessionId := none })
      (fun _ => rfl)
    rw [key, hfind]
    rfl
  · intro sid win
    refine ⟨{ t with isClaudeMode := true, claudeSessionId := some sid }, ?_, rfl⟩
    unfold resumeClaude
    rw [hfind]
    dsimp only
    have key := findTerminal_update σ.terminals id
      (fun u => { u with isClaudeMode := true, claudeSessionId := some sid })
      (fun _ => rfl)
    rw [key, hfind]
    rfl

/-- Witness for claim C3 at a state whose terminal has session id s1:
a probe leaves the state untouched. -/
theorem c3_session_id_set_once_witness :
    checkForSession capturedState "t1" 0 (some []) true = (capturedState, []) :=
  ((c3_session_id_set_once capturedState "t1" capturedTerminal ['s', '1']
    rfl rfl).2.1) 0 (some []) true

lemma getSession_key (st : List TerminalSession) (p id : String)
    (s : TerminalSession) (h : getSession st p id = some s) :
    s.projectPath = p ∧ s.id = id := by
  unfold getSession at h
  have hp := List.find?_some h
  simp only [Bool.and_eq_true, beq_iff_eq] at hp
  exact hp

/-- Claim C9: create with an id that already has a live process returns
success without touching any state, so no second process is spawned; two
create calls with the same id and no intervening destroy leave exactly one
new live process and return two successful results; and with a fresh id
create fails exactly when process spawning fails, reporting the underlying
error message and leaving the state unchanged. -/
theorem c9_create_idempotent
    (σ : ManagerState) (o o2 : CreateOptions) (hd hd2 : String) (now now2 : Int)
    (sf2 : Option String) (hid : o2.id = o.id)
    (hfresh : findTerminal σ.terminals o.id = none) :
    (∀ σl (ol : CreateOptions), (findTerminal σl.terminals ol.id).isSome →
      ∀ hdl nowl sfl, create σl ol hdl nowl sfl = (σl, ⟨true, none⟩)) ∧
    (∀ e, create σ o hd now (some e) = (σ, ⟨false, some e⟩)) ∧
    (create σ o hd now none).2 = ⟨true, none⟩ ∧
    (create ((create σ o hd now none).1) o2 hd2 now2 sf2
        = ((create σ o hd now none).1, ⟨true, none⟩)) ∧
    (create σ o hd now none).1.livePids.length = σ.livePids.length + 1 := by
  have hrun : ∀ σl (ol : CreateOptions), (findTerminal σl.terminals ol.id).isSome →
      ∀ hdl nowl sfl, create σl ol hdl nowl sfl = (σl, ⟨true, none⟩) := by
    intro σl ol hl hdl nowl sfl
    unfold create
    rw [if_pos hl]
  refine ⟨hrun, ?_, ?_, ?_, ?_⟩
  · intro e
    unfold create
    rw [if_neg (by simp [hfresh])]
  · unfold create
    rw [if_neg (by simp [hfresh])]
  · apply hrun
    have hmem : findTerminal ((create σ o hd now none).1).terminals o.id
        = some { id := o.id, pid := σ.nextPid, isClaudeMode := false,
                 projectPath := o.projectPath, cwd := o.cwd.getD hd,
                 claudeSessionId := none, outputBuffer := [],
                 title := "Terminal " ++ toString (σ.terminals.length + 1) } := by
      unfold create
      rw [if_neg (by simp [hfresh])]
      dsimp only
      cases hpp : o.projectPath with
      | none =>
        dsimp only
        exact findTerminal_append_single σ.terminals _ o.id hfresh rfl
      | some p =>
        dsimp only
        exact findTerminal_append_single σ.terminals _ o.id hfresh rfl
    rw [hid, hmem]
    rfl
  · unfold create
    rw [if_neg (by simp [hfresh])]
    dsimp only
    cases o.projectPath <;> simp

/-- Witness for claim C9: two concrete create calls on the empty state. -/
theorem c9_create_idempotent_witness :
    (create emptyState sampleOptions "/h" 0 none).2 = ⟨true, none⟩ ∧
    (create ((create emptyState sampleOptions "/h" 0 none).1) sampleOptions "/h" 1 none
      = ((create emptyState sampleOptions "/h" 0 none).1, ⟨true, none⟩)) :=
  ⟨(c9_create_idempotent emptyState sampleOptions sampleOptions "/h" "/h" 0 1 none
      rfl rfl).2.2.1,
   (c9_create_idempotent emptyState sampleOptions sampleOptions "/h" "/h" 0 1 none
      rfl rfl).2.2.2.1⟩

/-- Claim C10: invokeClaude and resumeClaude on a known terminal id emit a
title-change notification carrying the label Claude but leave the stored
title field and every other field of the record except isClaudeMode and
claudeSessionId unchanged; the record invokeClaude writes to the store is
the stored record with only the mode flag and last-active time changed, so
the persisted title remains the pre-invocation one, and resumeClaude does
not touch the store at all. -/
theorem c10_invoke_resume_title_frame
    (σ : ManagerState) (id : String) (t : TerminalProcess)
    (cwd : Option String) (now : Int) (sidOpt : Option (List Char))
    (hfind : findTerminal σ.terminals id = some t) :
    (findTerminal (invokeClaude σ id cwd now true).1.terminals id
        = some { t with isClaudeMode := true, claudeSessionId := none } ∧
      Notification.titleChange id "Claude" ∈ (invokeClaude σ id cwd now true).2 ∧
      (∀ p s, t.projectPath = some p → getSession σ.store p id = some s →
        getSession (invokeClaude σ id cwd now true).1.store p id
          = some { s with isClaudeMode := true, lastActiveAt := now })) ∧
    (findTerminal (resumeClaude σ id sidOpt true).1.terminals id
        = some (match sidOpt with
                | some sid => { t with isClaudeMode := true, claudeSessionId := some sid }
                | none => { t with isClaudeMode := true }) ∧
      Notification.titleChange id "Claude" ∈ (resumeClaude σ id sidOpt true).2 ∧
      (resumeClaude σ id sidOpt true).1.store = σ.store) := by
  refine ⟨⟨?_, ?_, ?_⟩, ⟨?_, ?_, ?_⟩⟩
  · unfold invokeClaude
    rw [hfind]
    dsimp only
    have key := findTerminal_update σ.terminals id
      (fun u => { u with isClaudeMode := true, claudeSessionId := none })
      (fun _ => rfl)
    rw [key, hfind]
    rfl
  · unfold invokeClaude
    rw [hfind]
    simp
  · intro p s hp hs
    unfold invokeClaude
    rw [hfind]
    dsimp only
    rw [hp]
    dsimp only
    rw [hs]
    dsimp only
    have hkey := getSession_key σ.store p id s hs
    rw [getSession_save]
    rw [if_pos ⟨hkey.1, hkey.2⟩]
  · unfold resumeClaude
    rw [hfind]
    dsimp only
    have key := findTerminal_update σ.terminals id
      (fun u => match sidOpt with
        | some sid => { u with isClaudeMode := true, claudeSessionId := some sid }
        | none => { u with isClaudeMode := true })
      (fun u => by cases sidOpt <;> rfl)
    rw [key, hfind]
    cases sidOpt <;> rfl
  · unfold resumeClaude
    rw [hfind]
    simp
  · unfold resumeClaude
    rw [hfind]

/-- Witness for claim C10: resumeClaude on the sample state leaves the
store untouched. -/
theorem c10_invoke_resume_title_frame_witness :
    (resumeClaude sampleState "t1" (some ['x']) true).1.store = sampleState.store :=
  (c10_invoke_resume_title_frame sampleState "t1" sampleTerminal none 0 (some ['x'])
    rfl).2.2.2

/-! ## Lemmas about the onData notification steps -/

lemma sidStep_notifs (id : String) (t : TerminalProcess) (st : List TerminalSession)
    (d : List Char) (win : Bool) :
    ∀ x ∈ (sidStep id t st d win).2.2, ∃ s, x = Notification.claudeSession id s := by
  unfold sidStep
  by_cases h : (t.isClaudeMode && t.claudeSessionId.isNone) = true
  · rw [if_pos h]
    cases he : extractClaudeSessionId d with
    | some sid =>
      dsimp only
      cases win with
      | true => intro x hx; exact ⟨sid, by simpa using hx⟩
      | false => intro x hx; simp at hx
    | none => intro x hx; simp at hx
  · rw [if_neg h]
    intro x hx; simp at hx

lemma rateStep_notifs (id : String) (t : TerminalProcess) (rl : List (String × Int))
    (d : List Char) (now : Int) (win : Bool) :
    (rateStep id t rl d now win).2
      = if win = true ∧ t.isClaudeMode = true ∧ (rateLimitMatch d).isSome ∧
           now - (lookupRL rl id).getD 0 > 60000
        then [Notification.rateLimit id (trimL ((rateLimitMatch d).getD [])) now]
        else [] := by
  unfold rateStep
  cases hm : t.isClaudeMode with
  | false => simp [hm]
  | true =>
    cases he : rateLimitMatch d with
    | none => simp [he]
    | some raw =>
      dsimp only
      by_cases hc : now - (lookupRL rl id).getD 0 > 60000
      · rw [if_pos hc]
        cases win <;> simp [he, hc]
      · rw [if_neg hc]
        simp [he, hc]

lemma rateStep_map (id : String) (t : TerminalProcess) (rl : List (String × Int))
    (d : List Char) (now : Int) (win : Bool) :
    (rateStep id t rl d now win).1
      = if t.isClaudeMode = true ∧ (rateLimitMatch d).isSome ∧
           now - (lookupRL rl id).getD 0 > 60000
        then setRL rl id now else rl := by
  unfold rateStep
  cases hm : t.isClaudeMode with
  | false => simp [hm]
  | true =>
    cases he : rateLimitMatch d with
    | none => simp [he]
    | some raw =>
      dsimp only
      by_cases hc : now - (lookupRL rl id).getD 0 > 60000
      · rw [if_pos hc]
        simp [he, hc]
      · rw [if_neg hc]
        simp [he, hc]

lemma onData_parts (σ : ManagerState) (id : String) (d : List Char) (now : Int)
    (win : Bool) (t : TerminalProcess) (hfind : findTerminal σ.terminals id = some t) :
    (onData σ id d now win).1.rateLimitNotifiedAt
      = (rateStep id t σ.rateLimitNotifiedAt d now win).1 ∧
    (onData σ id d now win).2
      = (sidStep id t σ.store d win).2.2
        ++ (rateStep id t σ.rateLimitNotifiedAt d now win).2
        ++ (if win then [Notification.output id d] else []) := by
  unfold onData
  rw [hfind]
  exact ⟨rfl, rfl⟩

lemma rate_mem_onData (σ : ManagerState) (id : String) (d : List Char) (now : Int)
    (win : Bool) (t : TerminalProcess) (rt : List Char) (ts : Int)
    (hfind : findTerminal σ.terminals id = some t) :
    Notification.rateLimit id rt ts ∈ (onData σ id d now win).2 ↔
      (win = true ∧ t.isClaudeMode = true ∧ (rateLimitMatch d).isSome ∧
        now - (lookupRL σ.rateLimitNotifiedAt id).getD 0 > 60000 ∧
        rt = trimL ((rateLimitMatch d).getD []) ∧ ts = now) := by
  rw [(onData_parts σ id d now win t hfind).2]
  simp only [List.mem_append]
  constructor
  · intro hx
    rcases hx with (hx | hx) | hx
    · obtain ⟨s, hs⟩ := sidStep_notifs id t σ.store d win _ hx
      exact absurd hs (by simp)
    · rw [rateStep_notifs] at hx
      by_cases hcond : win = true ∧ t.isClaudeMode = true ∧ (rateLimitMatch d).isSome ∧
          now - (lookupRL σ.rateLimitNotifiedAt id).getD 0 > 60000
      · rw [if_pos hcond] at hx
        simp only [List.mem_singleton, Notification.rateLimit.injEq] at hx
        exact ⟨hcond.1, hcond.2.1, hcond.2.2.1, hcond.2.2.2, hx.2.1, hx.2.2⟩
      · rw [if_neg hcond] at hx
        simp at hx
    · cases win <;> simp at hx
  · intro hc
    refine Or.inl (Or.inr ?_)
    rw [rateStep_notifs, if_pos ⟨hc.1, hc.2.1, hc.2.2.1, hc.2.2.2.1⟩]
    simp [hc.2.2.2.2.1, hc.2.2.2.2.2]

/-- Claim C5: for a terminal in assistant mode, a chunk matching the
rate-limit pattern yields the trimmed free-text reset description (shown
on the concrete example of the specification), and a rate-limit
notification for a terminal id is emitted only when strictly more than
60000 milliseconds have passed since the recorded last notification time
for that id; a first qualifying match notifies and records the time, a
second match within 60 seconds is suppressed, and a match strictly after
60 seconds notifies again. -/
theorem c5_rate_limit_cooldown
    (σ : ManagerState) (id : String) (t : TerminalProcess)
    (d d2 : List Char) (now1 now2 : Int) (raw : List Char)
    (hfind : findTerminal σ.terminals id = some t)
    (hmode : t.isClaudeMode = true)
    (hmatch : rateLimitMatch d = some raw)
    (hmatch2 : (rateLimitMatch d2).isSome)
    (hfirst : now1 - (lookupRL σ.rateLimitNotifiedAt id).getD 0 > 60000) :
    ((rateLimitMatch "Limit reached · resets Dec 17 at 6am (Europe/Oslo)".toList).map trimL
        = some "Dec 17 at 6am (Europe/Oslo)".toList) ∧
    (∀ (σa : ManagerState) (ta : TerminalProcess) da nowa wina rt ts,
      findTerminal σa.terminals id = some ta →
      Notification.rateLimit id rt ts ∈ (onData σa id da nowa wina).2 →
      nowa - (lookupRL σa.rateLimitNotifiedAt id).getD 0 > 60000) ∧
    (Notification.rateLimit id (trimL raw) now1 ∈ (onData σ id d now1 true).2) ∧
    (¬ (now2 - now1 > 60000) → ∀ rt ts,
      Notification.rateLimit id rt ts
        ∉ (onData (onData σ id d now1 true).1 id d2 now2 true).2) ∧
    ((now2 - now1 > 60000) → ∃ rt,
      Notification.rateLimit id rt now2
        ∈ (onData (onData σ id d now1 true).1 id d2 now2 true).2) := by
  have hσ1find := onData_find σ id d now1 true t hfind
  have hσ1rl : (onData σ id d now1 true).1.rateLimitNotifiedAt
      = setRL σ.rateLimitNotifiedAt id now1 := by
    rw [(onData_parts σ id d now1 true t hfind).1, rateStep_map,
      if_pos ⟨hmode, by simp [hmatch], hfirst⟩]
  have hlast1 : (lookupRL (onData σ id d now1 true).1.rateLimitNotifiedAt id).getD 0
      = now1 := by
    rw [hσ1rl, lookupRL_set]
    rfl
  refine ⟨by decide, ?_, ?_, ?_, ?_⟩
  · intro σa ta da nowa wina rt ts hfa hmem
    exact ((rate_mem_onData σa id da nowa wina ta rt ts hfa).mp hmem).2.2.2.1
  · rw [rate_mem_onData σ id d now1 true t (trimL raw) now1 hfind]
    exact ⟨rfl, hmode, by simp [hmatch], hfirst, by simp [hmatch], rfl⟩
  · intro hno rt ts hmem
    have h := (rate_mem_onData _ id d2 now2 true _ rt ts hσ1find).mp hmem
    rw [hlast1] at h
    exact hno h.2.2.2.1
  · intro hyes
    refine ⟨trimL ((rateLimitMatch d2).getD []), ?_⟩
    rw [rate_mem_onData _ id d2 now2 true _ _ now2 hσ1find]
    exact ⟨rfl, hmode, hmatch2, by rw [hlast1]; exact hyes, rfl, rfl⟩

/-- Witness for claim C5 at a concrete claude-mode state and a concrete
rate-limit chunk, repeated within the cool-down window. -/
theorem c5_rate_limit_cooldown_witness :
    (Notification.rateLimit "t1"
        (trimL "Dec 17 at 6am (Europe/Oslo)".toList) 100000
      ∈ (onData claudeState "t1"
          "Limit reached · resets Dec 17 at 6am (Europe/Oslo)".toList 100000 true).2) ∧
    (∀ rt ts, Notification.rateLimit "t1" rt ts
      ∉ (onData (onData claudeState "t1"
            "Limit reached · resets Dec 17 at 6am (Europe/Oslo)".toList 100000 true).1
          "t1" "Limit reached · resets Dec 17 at 6am (Europe/Oslo)".toList 130000 true).2) := by
  have h := c5_rate_limit_cooldown claudeState "t1" claudeTerminal
    "Limit reached · resets Dec 17 at 6am (Europe/Oslo)".toList
    "Limit reached · resets Dec 17 at 6am (Europe/Oslo)".toList
    100000 130000 "Dec 17 at 6am (Europe/Oslo)".toList
    rfl rfl (by decide) (by decide) (by decide)
  exact ⟨h.2.2.1, h.2.2.2.1 (by decide)⟩

/-! ## Lemmas about create and restore -/

lemma create_fresh (σ : ManagerState) (o : CreateOptions) (hd : String) (now : Int)
    (hfresh : findTerminal σ.terminals o.id = none) :
    (create σ o hd now none).2 = ⟨true, none⟩ ∧
    findTerminal (create σ o hd now none).1.terminals o.id
      = some { id := o.id, pid := σ.nextPid, isClaudeMode := false,
               projectPath := o.projectPath, cwd := o.cwd.getD hd,
               claudeSessionId := none, outputBuffer := [],
               title := "Terminal " ++ toString (σ.terminals.length + 1) } ∧
    (create σ o hd now none).1.pendingCaptures = σ.pendingCaptures := by
  unfold create
  rw [if_neg (by simp [hfresh])]
  dsimp only
  cases hpp : o.projectPath with
  | none =>
    dsimp only
    exact ⟨rfl, findTerminal_append_single σ.terminals _ o.id hfresh rfl, rfl⟩
  | some p =>
    dsimp only
    exact ⟨rfl, findTerminal_append_single σ.terminals _ o.id hfresh rfl, rfl⟩

/-- Claim C7 counterexample: restoring the sample assistant-mode session
(no known session id) at time 0 schedules the polling capture anchored at
1000 milliseconds, the timestamp taken after the one-second settle delay,
and not at the pre-delay timestamp 0 claimed. -/
theorem c7_restore_anchor_counterexample :
    (restore emptyState sampleSession 80 24 0 "/h" none true).1.pendingCaptures
      = [("t1", "/p", 1000)] ∧
    ¬ ((restore emptyState sampleSession 80 24 0 "/h" none true).1.pendingCaptures
      = [("t1", "/p", 0)]) := by
  constructor
  · rfl
  · decide

/-- Claim C7 amended: when restoring a persisted assistant-mode session
with no known session id and a nonempty project directory, the polling
capture begun by restore is anchored at the post-delay timestamp t0+1000,
taken after the fixed one-second shell-settle delay (so a session log file
written during the settle delay does not qualify as newer than the
anchor), and restore reports success returning the persisted buffer. -/
theorem c7_restore_anchor
    (σ : ManagerState) (s : TerminalSession) (cols rows : Nat) (t0 : Int)
    (hd : String) (win : Bool)
    (hmode : s.isClaudeMode = true)
    (hsid : s.claudeSessionId = none)
    (hfresh : findTerminal σ.terminals s.id = none)
    (hdir : ((if s.cwd == "" then s.projectPath else s.cwd) == "") = false) :
    (restore σ s cols rows t0 hd none win).1.pendingCaptures
      = σ.pendingCaptures
        ++ [(s.id, (if s.cwd == "" then s.projectPath else s.cwd), t0 + 1000)] ∧
    (restore σ s cols rows t0 hd none win).2.2
      = ⟨true, none, some s.outputBuffer⟩ := by
  have hc := create_fresh σ
    { id := s.id, cwd := some s.cwd, cols := cols, rows := rows,
      projectPath := some s.projectPath } hd t0 hfresh
  unfold restore
  dsimp only
  rw [hc.1]
  dsimp only
  rw [hc.2.1]
  dsimp only
  rw [hmode, if_pos rfl]
  have hcond : (s.claudeSessionId.isNone
      && !((if s.cwd == "" then s.projectPath else s.cwd) == "")) = true := by
    rw [hsid, hdir]
    rfl
  rw [hcond, if_pos rfl]
  refine ⟨?_, rfl⟩
  rw [hc.2.2]
  rfl

/-- Witness for the amended claim C7 at the sample session. -/
theorem c7_restore_anchor_witness :
    (restore emptyState sampleSession 80 24 0 "/h" none true).1.pendingCaptures
      = emptyState.pendingCaptures
        ++ [("t1", (if sampleSession.cwd == "" then sampleSession.projectPath
                    else sampleSession.cwd), 0 + 1000)] ∧
    (restore emptyState sampleSession 80 24 0 "/h" none true).2.2
      = ⟨true, none, some sampleSession.outputBuffer⟩ :=
  c7_restore_anchor emptyState sampleSession 80 24 0 "/h" true rfl rfl rfl rfl

/-! ## Lemmas about killAll -/

lemma persist_fold_skip (now : Int) (p id : String) :
    ∀ (ts : List TerminalProcess) (st : List TerminalSession),
      (∀ u ∈ ts, u.id ≠ id) →
      getSession (ts.foldl (fun st u =>
        match u.projectPath with
        | some q => saveSession st (sessionSnapshot u q now)
        | none => st) st) p id = getSession st p id := by
  intro ts
  induction ts with
  | nil => intro st _; rfl
  | cons u ts ih =>
    intro st hne
    simp only [List.foldl_cons]
    have h1 : getSession (match u.projectPath with
        | some q => saveSession st (sessionSnapshot u q now)
        | none => st) p id = getSession st p id := by
      cases hq : u.projectPath with
      | none => rfl
      | some q =>
        rw [getSession_save, if_neg]
        intro hcon
        exact (hne u (by simp)) hcon.2
    rw [ih _ (fun v hv => hne v (by simp [hv])), h1]

lemma persist_fold_lookup (now : Int) (id p : String) :
    ∀ (ts : List TerminalProcess) (st : List TerminalSession),
      ts.Pairwise (fun a b => a.id ≠ b.id) →
      ∀ t ∈ ts, t.id = id → t.projectPath = some p →
      getSession (ts.foldl (fun st u =>
        match u.projectPath with
        | some q => saveSession st (sessionSnapshot u q now)
        | none => st) st) p id = some (sessionSnapshot t p now) := by
  intro ts
  induction ts with
  | nil => intro st _ t ht; simp at ht
  | cons u ts ih =>
    intro st hpw t ht htid htp
    simp only [List.foldl_cons]
    rcases List.mem_cons.mp ht with he | hmem
    · subst he
      rw [persist_fold_skip now p id ts _ ?hne]
      · rw [htp]
        dsimp only
        rw [getSession_save, if_pos ⟨rfl, htid⟩]
      case hne =>
        intro v hv hc
        have hdiff := (List.pairwise_cons.mp hpw).1 v hv
        rw [htid] at hdiff
        exact hdiff hc.symm
    · exact ih _ (List.pairwise_cons.mp hpw).2 t hmem htid htp

/-- Claim C8 counterexample: killAll on a state with a nonempty rate-limit
cool-down map leaves that map untouched, contradicting the claim that it
tears the cool-down map down along with the timer. -/
theorem c8_killAll_counterexample :
    (killAll rlState 0 (fun _ => false)).rateLimitNotifiedAt = [("t1", 5)] ∧
    ¬ ((killAll rlState 0 (fun _ => false)).rateLimitNotifiedAt = []) := by
  constructor
  · rfl
  · decide

/-- Claim C8 amended: killAll persists every live session that has a
project path (as a snapshot with both timestamps refreshed), cancels the
periodic persistence timer, best-effort terminates every pty process with
each termination isolated (a pid stays live exactly when its own kill
threw, independently of the others), and clears the registry; the
rate-limit cool-down map is left unchanged, not torn down. -/
theorem c8_killAll_behaviour
    (σ : ManagerState) (now : Int) (killFails : Nat → Bool)
    (huniq : σ.terminals.Pairwise (fun a b => a.id ≠ b.id)) :
    (∀ t ∈ σ.terminals, ∀ p, t.projectPath = some p →
      getSession (killAll σ now killFails).store p t.id
        = some (sessionSnapshot t p now)) ∧
    (killAll σ now killFails).saveTimerActive = false ∧
    (killAll σ now killFails).terminals = [] ∧
    (killAll σ now killFails).livePids
      = σ.livePids.filter (fun q =>
          !(((σ.terminals.filter (fun t => !(killFails t.pid))).map
              (fun t => t.pid)).contains q)) ∧
    (killAll σ now killFails).rateLimitNotifiedAt = σ.rateLimitNotifiedAt := by
  refine ⟨?_, rfl, rfl, rfl, rfl⟩
  intro t ht p hp
  exact persist_fold_lookup now t.id p σ.terminals σ.store huniq t ht rfl hp

/-! ## Lemmas about the session-id extractor -/

lemma eatLitCI_append (a b s : List Char) :
    eatLitCI (a ++ b) s = (eatLitCI a s).bind (eatLitCI b) := by
  induction a generalizing s with
  | nil => simp [eatLitCI]
  | cons p ps ih =>
    cases s with
    | nil => simp [eatLitCI]
    | cons c cs =>
      simp only [List.cons_append, eatLitCI]
      by_cases h : ciEq p c = true
      · rw [if_pos h, if_pos h]
        exact ih cs
      · rw [if_neg h, if_neg h]
        rfl

lemma eatLitCI_drop (a : List Char) :
    ∀ s r, eatLitCI a s = some r → r = s.drop a.length := by
  induction a with
  | nil =>
    intro s r h
    simp only [eatLitCI, Option.some.injEq] at h
    simp [← h]
  | cons p ps ih =>
    intro s r h
    cases s with
    | nil => simp [eatLitCI] at h
    | cons c cs =>
      simp only [eatLitCI] at h
      by_cases hc : ciEq p c = true
      · rw [if_pos hc] at h
        simpa using ih cs r h
      · rw [if_neg hc] at h
        cases h

lemma eatLitCI_congr {a b : List Char}
    (hab : List.Forall₂ (fun x y => ciEq x y = true) a b) :
    ∀ s, eatLitCI a s = eatLitCI b s := by
  induction hab with
  | nil => intro s; rfl
  | @cons x y as bs hxy _ ih =>
    intro s
    cases s with
    | nil => rfl
    | cons c cs =>
      simp only [eatLitCI]
      have hxyc : ciEq x c = ciEq y c := by
        unfold ciEq at *
        rw [beq_iff_eq] at hxy
        rw [hxy]
      rw [hxyc]
      by_cases h : ciEq y c = true
      · rw [if_pos h, if_pos h]
        exact ih cs
      · rw [if_neg h, if_neg h]

lemma scanP_none_suffix (f : List Char → Option (List Char)) :
    ∀ s, scanP f s = none → ∀ t, t <:+ s → f t = none := by
  intro s
  induction s with
  | nil =>
    intro h t ht
    rw [List.suffix_nil.mp ht]
    simpa [scanP] using h
  | cons c cs ih =>
    intro h t ht
    have h0 : f (c :: cs) = none ∧ scanP f cs = none := by
      unfold scanP at h
      cases hf : f (c :: cs) with
      | some v => rw [hf] at h; cases h
      | none => rw [hf] at h; exact ⟨rfl, h⟩
    rcases List.suffix_cons_iff.mp ht with he | hs
    · rw [he]
      exact h0.1
    · exact ih h0.2 t hs

lemma scanP_some (f : List Char → Option (List Char)) :
    ∀ s tok, scanP f s = some tok → ∃ t, t <:+ s ∧ f t = some tok := by
  intro s
  induction s with
  | nil =>
    intro tok h
    exact ⟨[], List.suffix_rfl, by simpa [scanP] using h⟩
  | cons c cs ih =>
    intro tok h
    unfold scanP at h
    cases hf : f (c :: cs) with
    | some v =>
      rw [hf] at h
      exact ⟨c :: cs, List.suffix_rfl, by rw [hf]; exact h⟩
    | none =>
      rw [hf] at h
      obtain ⟨t, hts, hft⟩ := ih tok h
      exact ⟨t, hts.trans (List.suffix_cons c cs), hft⟩

lemma p3At_p1At (t tok : List Char) (h : p3At t = some tok) :
    p1At (t.drop 9) = some tok := by
  unfold p3At at h
  cases he : eatLitCI "Resuming session".toList t with
  | none => rw [he] at h; cases h
  | some r =>
    rw [he] at h
    dsimp only at h
    have hsplit : ("Resuming session".toList : List Char)
        = "Resuming ".toList ++ "session".toList := by decide
    rw [hsplit, eatLitCI_append] at he
    cases h9 : eatLitCI "Resuming ".toList t with
    | none => rw [h9] at he; simp at he
    | some u =>
      rw [h9, Option.some_bind] at he
      have hu : t.drop 9 = u := by
        have hd := eatLitCI_drop "Resuming ".toList t u h9
        simpa using hd.symm
      have hforall : List.Forall₂ (fun x y => ciEq x y = true)
          "Session".toList "session".toList := by decide
      have hsess : eatLitCI "Session".toList u = some r := by
        rw [eatLitCI_congr hforall u]
        exact he
      unfold colonTok at h
      cases hcol : eatLitCI [':'] r with
      | none => rw [hcol] at h; cases h
      | some r2 =>
        rw [hcol] at h
        cases r with
        | nil => simp [eatLitCI] at hcol
        | cons c cs =>
          simp only [eatLitCI] at hcol
          by_cases hci : ciEq ':' c = true
          · rw [if_pos hci] at hcol
            have hc58 : c.toNat = 58 := by
              unfold ciEq at hci
              rw [beq_iff_eq] at hci
              have hcolon : lowerN (Char.toNat ':') = 58 := by decide
              rw [hcolon] at hci
              unfold lowerN at hci
              by_cases h65 : (65 ≤ c.toNat && c.toNat ≤ 90) = true
              · rw [if_pos h65] at hci
                simp only [Bool.and_eq_true, decide_eq_true_eq] at h65
                omega
              · rw [if_neg h65] at hci
                omega
            have hws : isWs c = false := by
              simp [isWs, hc58]
            unfold p1At
            rw [hu, hsess]
            dsimp only
            have hws1 : eatWs1 (c :: cs) = none := by
              unfold eatWs1
              dsimp only
              rw [hws]
              rfl
            rw [hws1]
            dsimp only
            unfold colonTok
            have hcol2 : eatLitCI [':'] (c :: cs) = some cs := by
              simp [eatLitCI, hci]
            rw [hcol2]
            dsimp only
            dsimp only at h
            injection hcol with hr
            rw [hr]
            exact h
          · rw [if_neg hci] at hcol
            cases hcol

lemma scanP_p3_none (s : List Char) (h1 : scanP p1At s = none) :
    scanP p3At s = none := by
  cases hc : scanP p3At s with
  | none => rfl
  | some tok =>
    exfalso
    obtain ⟨t, hts, hp3⟩ := scanP_some p3At s tok hc
    have hp1 := p3At_p1At t tok hp3
    have hsuffix : t.drop 9 <:+ s := (List.drop_suffix 9 t).trans hts
    have hnone := scanP_none_suffix p1At s h1 (t.drop 9) hsuffix
    rw [hnone] at hp1
    cases hp1

/-- Claim C4: session-id extraction tries the fixed pattern list and the
first matching pattern wins, returning its captured token of letters,
digits, hyphens and underscores; the extractor agrees on every chunk with
the priority order as the specification states it (the explicit Session
label first, then the generic session and conversation key-value
occurrences, then the explicit Resuming session phrase), because a chunk
matching the Resuming session phrase always matches the Session pattern
as well; on the concrete examples, Session: abc-123 yields abc-123,
session_id=xy9 yields xy9, and a chunk with no matching phrase yields
none. -/
theorem c4_extractor_priority :
    (∀ s, extractClaudeSessionId s = extractSessionIdSpecOrder s) ∧
    extractClaudeSessionId "Session: abc-123".toList = some "abc-123".toList ∧
    extractClaudeSessionId "session_id=xy9".toList = some "xy9".toList ∧
    extractClaudeSessionId "just some plain text".toList = none := by
  refine ⟨?_, by decide, by decide, by decide⟩
  intro s
  unfold extractClaudeSessionId extractSessionIdSpecOrder CLAUDE_SESSION_PATTERNS
  cases h1 : scanP p1At s with
  | some tok => simp [firstMatch, h1]
  | none =>
    cases h2 : scanP p2At s with
    | some tok => simp [firstMatch, h1, h2]
    | none =>
      have h3 := scanP_p3_none s h1
      cases h4 : scanP p4At s with
      | some tok => simp [firstMatch, h1, h2, h3, h4]
      | none => simp [firstMatch, h1, h2, h3, h4]

/-- Witness for claim C4: both pattern orders agree on a chunk carrying
the Resuming session phrase. -/
theorem c4_extractor_priority_witness :
    extractClaudeSessionId "Resuming session: r-9".toList
      = extractSessionIdSpecOrder "Resuming session: r-9".toList :=
  (c4_extractor_priority).1 "Resuming session: r-9".toList

/-! ## Lemmas about the directory scanner -/

lemma mem_insertByMtime (f x : LogFile) :
    ∀ l, x ∈ insertByMtime f l ↔ x = f ∨ x ∈ l := by
  intro l
  induction l with
  | nil => simp [insertByMtime]
  | cons g gs ih =>
    unfold insertByMtime
    by_cases h : f.mtime ≤ g.mtime
    · rw [if_pos h]
      simp only [List.mem_cons, ih]
      tauto
    · rw [if_neg h]
      simp only [List.mem_cons]

lemma mem_sortByMtimeDesc (x : LogFile) :
    ∀ l, x ∈ sortByMtimeDesc l ↔ x ∈ l := by
  intro l
  induction l with
  | nil => simp [sortByMtimeDesc]
  | cons f fs ih =>
    unfold sortByMtimeDesc
    rw [mem_insertByMtime]
    simp [ih]

lemma pairwise_insertByMtime (f : LogFile) :
    ∀ l, l.Pairwise (fun a b => b.mtime ≤ a.mtime) →
      (insertByMtime f l).Pairwise (fun a b => b.mtime ≤ a.mtime) := by
  intro l
  induction l with
  | nil => intro _; simp [insertByMtime]
  | cons g gs ih =>
    intro hp
    obtain ⟨hg, hgs⟩ := List.pairwise_cons.mp hp
    unfold insertByMtime
    by_cases h : f.mtime ≤ g.mtime
    · rw [if_pos h]
      refine List.pairwise_cons.mpr ⟨?_, ih hgs⟩
      intro y hy
      rcases (mem_insertByMtime f y gs).mp hy with he | hm
      · rw [he]; exact h
      · exact hg y hm
    · rw [if_neg h]
      refine List.pairwise_cons.mpr ⟨?_, hp⟩
      intro y hy
      rcases List.mem_cons.mp hy with he | hm
      · rw [he]; omega
      · have := hg y hm; omega

lemma pairwise_sortByMtimeDesc : ∀ l : List LogFile,
    (sortByMtimeDesc l).Pairwise (fun a b => b.mtime ≤ a.mtime) := by
  intro l
  induction l with
  | nil => simp [sortByMtimeDesc]
  | cons f fs ih => exact pairwise_insertByMtime f _ ih

lemma findClaudeSessionAfter_some (files : List LogFile) (T : Int)
    (sid : List Char) (hsid : findClaudeSessionAfter (some files) T = some sid) :
    ∃ f ∈ files, endsWithL jsonlExt f.name = true ∧ f.mtime > T ∧
      sid = replaceFirstL jsonlExt f.name ∧
      ∀ g ∈ files, endsWithL jsonlExt g.name = true → g.mtime > T →
        g.mtime ≤ f.mtime := by
  unfold findClaudeSessionAfter at hsid
  dsimp only at hsid
  cases hsort : sortByMtimeDesc
      ((files.filter (fun f => endsWithL jsonlExt f.name)).filter
        (fun f => f.mtime > T)) with
  | nil => rw [hsort] at hsid; cases hsid
  | cons f rest =>
    rw [hsort] at hsid
    have hfmem : f ∈ (files.filter (fun f => endsWithL jsonlExt f.name)).filter
        (fun f => f.mtime > T) := by
      rw [← mem_sortByMtimeDesc, hsort]
      simp
    simp only [List.mem_filter, decide_eq_true_eq] at hfmem
    refine ⟨f, hfmem.1.1, hfmem.1.2, hfmem.2, by
      injection hsid with hs; exact hs.symm, ?_⟩
    intro g hg hge hgt
    have hgmem : g ∈ sortByMtimeDesc
        ((files.filter (fun f => endsWithL jsonlExt f.name)).filter
          (fun f => f.mtime > T)) := by
      rw [mem_sortByMtimeDesc]
      simp only [List.mem_filter, decide_eq_true_eq]
      exact ⟨⟨hg, hge⟩, hgt⟩
    rw [hsort] at hgmem
    rcases List.mem_cons.mp hgmem with he | hm
    · rw [he]
    · have hpw := pairwise_sortByMtimeDesc
        ((files.filter (fun f => endsWithL jsonlExt f.name)).filter
          (fun f => f.mtime > T))
      rw [hsort] at hpw
      exact (List.pairwise_cons.mp hpw).1 g hm

lemma findClaudeSessionAfter_none (files : List LogFile) (T : Int)
    (hall : ∀ f ∈ files, endsWithL jsonlExt f.name = true → f.mtime ≤ T) :
    findClaudeSessionAfter (some files) T = none := by
  unfold findClaudeSessionAfter
  dsimp only
  have hempty : (files.filter (fun f => endsWithL jsonlExt f.name)).filter
      (fun f => f.mtime > T) = [] := by
    rw [List.filter_eq_nil_iff]
    intro g hg
    simp only [List.mem_filter] at hg
    simp only [decide_eq_true_eq, not_lt]
    exact hall g hg.1 hg.2
  rw [hempty]
  rfl

/-! ## Lemmas about the capture schedule -/

lemma captureGoT_length (world : Nat → ProbeWorld) (startTime : Int) :
    ∀ (k a : Nat) (tcur : Int), maxAttempts - a ≤ k →
      (captureGoT world startTime a tcur).length ≤ k := by
  intro k
  induction k with
  | zero =>
    intro a tcur h
    rw [captureGoT]
    rw [dif_neg (by omega)]
    simp
  | succ k ih =>
    intro a tcur h
    rw [captureGoT]
    by_cases ha : a < maxAttempts
    · rw [dif_pos ha]
      cases hstep : captureStep (world (a + 1)) startTime with
      | notFound =>
        simp only [List.length_cons]
        have := ih (a + 1) (tcur + 1000) (by omega)
        omega
      | abort => simp
      | adopt s => simp
    · rw [dif_neg ha]
      simp

lemma captureGoT_get (world : Nat → ProbeWorld) (startTime : Int) :
    ∀ (k a : Nat) (tcur : Int), maxAttempts - a ≤ k →
      ∀ i r, (captureGoT world startTime a tcur).get? i = some r →
        r.1 = a + i + 1 ∧ r.2.1 = tcur + 1000 * (i : Int) ∧
        r.2.2 = captureStep (world (a + i + 1)) startTime := by
  intro k
  induction k with
  | zero =>
    intro a tcur h i r hr
    rw [captureGoT, dif_neg (by omega)] at hr
    cases hr
  | succ k ih =>
    intro a tcur h i r hr
    rw [captureGoT] at hr
    by_cases ha : a < maxAttempts
    · rw [dif_pos ha] at hr
      cases hstep : captureStep (world (a + 1)) startTime with
      | notFound =>
        rw [hstep] at hr
        cases i with
        | zero =>
          simp only [List.get?_cons_zero, Option.some.injEq] at hr
          rw [← hr]
          refine ⟨rfl, by simp, hstep.symm⟩
        | succ i' =>
          simp only [List.get?_cons_succ] at hr
          obtain ⟨h1, h2, h3⟩ := ih (a + 1) (tcur + 1000) (by omega) i' r hr
          refine ⟨by omega, ?_, ?_⟩
          · rw [h2]
            push_cast
            ring
          · rw [h3]
            have harg : a + 1 + i' + 1 = a + (i' + 1) + 1 := by omega
            rw [harg]
      | abort =>
        rw [hstep] at hr
        cases i with
        | zero =>
          simp only [List.get?_cons_zero, Option.some.injEq] at hr
          rw [← hr]
          refine ⟨rfl, by simp, hstep.symm⟩
        | succ i' => simp at hr
      | adopt s =>
        rw [hstep] at hr
        cases i with
        | zero =>
          simp only [List.get?_cons_zero, Option.some.injEq] at hr
          rw [← hr]
          refine ⟨rfl, by simp, hstep.symm⟩
        | succ i' => simp at hr
    · rw [dif_neg ha] at hr
      cases hr

lemma captureGoT_consec (world : Nat → ProbeWorld) (startTime : Int) :
    ∀ (k a : Nat) (tcur : Int), maxAttempts - a ≤ k →
      ∀ i r r', (captureGoT world startTime a tcur).get? i = some r →
        (captureGoT world startTime a tcur).get? (i + 1) = some r' →
        r.2.2 = ProbeAction.notFound := by
  intro k
  induction k with
  | zero =>
    intro a tcur h i r r' hr hr'
    rw [captureGoT, dif_neg (by omega)] at hr
    cases hr
  | succ k ih =>
    intro a tcur h i r r' hr hr'
    rw [captureGoT] at hr hr'
    by_cases ha : a < maxAttempts
    · rw [dif_pos ha] at hr hr'
      cases hstep : captureStep (world (a + 1)) startTime with
      | notFound =>
        rw [hstep] at hr hr'
        cases i with
        | zero =>
          simp only [List.get?_cons_zero, Option.some.injEq] at hr
          rw [← hr]
        | succ i' =>
          simp only [List.get?_cons_succ] at hr hr'
          exact ih (a + 1) (tcur + 1000) (by omega) i' r r' hr hr'
      | abort =>
        rw [hstep] at hr hr'
        cases i with
        | zero => simp at hr'
        | succ i' => simp at hr
      | adopt s =>
        rw [hstep] at hr hr'
        cases i with
        | zero => simp at hr'
        | succ i' => simp at hr
    · rw [dif_neg ha] at hr
      cases hr

lemma captureGoT_all_notFound (world : Nat → ProbeWorld) (startTime : Int)
    (hall : ∀ j, captureStep (world j) startTime = ProbeAction.notFound) :
    ∀ (k a : Nat) (tcur : Int), maxAttempts - a = k →
      (captureGoT world startTime a tcur).length = k ∧
      ∀ r ∈ captureGoT world startTime a tcur, r.2.2 = ProbeAction.notFound := by
  intro k
  induction k with
  | zero =>
    intro a tcur h
    rw [captureGoT, dif_neg (by omega)]
    simp
  | succ k ih =>
    intro a tcur h
    have ha : a < maxAttempts := by omega
    rw [captureGoT, dif_pos ha, hall (a + 1)]
    obtain ⟨hlen, hmem⟩ := ih (a + 1) (tcur + 1000) (by omega)
    constructor
    · simp only [List.length_cons, hlen]
    · intro r hrmem
      rcases List.mem_cons.mp hrmem with he | hm
      · rw [he]
      · exact hmem r hm

/-- Claim C6: the polling capture protocol always terminates within a
bounded number of probes.  The trace of captureClaudeSessionId has at most
ten entries; entry i is attempt i+1, fired at startTime + 2000 + 1000*i
(the first probe two seconds after the anchor, each reschedule one second
later), and carries the decision of captureStep at that probe; a probe
aborts silently when the terminal no longer exists, has left assistant
mode, or already has a session id, and otherwise scans for the most
recently modified log file with modification time strictly greater than
the anchor timestamp, where an absent directory or no qualifying file
yields not-found rather than an error; a probe is followed by another only
when it reported not-found, and when every probe reports not-found the
trace has exactly ten entries, all not-found, after which capture is
abandoned silently. -/
theorem c6_capture_protocol (world : Nat → ProbeWorld) (startTime : Int) :
    (captureClaudeSessionId world startTime).length ≤ maxAttempts ∧
    (∀ i r, (captureClaudeSessionId world startTime).get? i = some r →
      r.1 = i + 1 ∧ r.2.1 = startTime + 2000 + 1000 * (i : Int) ∧
      r.2.2 = captureStep (world (i + 1)) startTime) ∧
    (∀ i r r', (captureClaudeSessionId world startTime).get? i = some r →
      (captureClaudeSessionId world startTime).get? (i + 1) = some r' →
      r.2.2 = ProbeAction.notFound) ∧
    ((world 0).termAlive.isSome = true →
      (∀ j, captureStep (world j) startTime = ProbeAction.notFound) →
      (captureClaudeSessionId world startTime).length = maxAttempts ∧
      ∀ r ∈ captureClaudeSessionId world startTime,
        r.2.2 = ProbeAction.notFound) ∧
    (∀ (w : ProbeWorld) (t : Int),
      (w.termAlive = none → captureStep w t = ProbeAction.abort) ∧
      (∀ sid, w.termAlive = some (false, sid) →
        captureStep w t = ProbeAction.abort) ∧
      (∀ s, w.termAlive = some (true, some s) →
        captureStep w t = ProbeAction.abort) ∧
      (w.termAlive = some (true, none) →
        captureStep w t = (match findClaudeSessionAfter w.dir t with
          | some s => ProbeAction.adopt s
          | none => ProbeAction.notFound))) ∧
    (∀ T : Int, findClaudeSessionAfter none T = none) ∧
    (∀ (files : List LogFile) (T : Int) sid,
      findClaudeSessionAfter (some files) T = some sid →
      ∃ f ∈ files, endsWithL jsonlExt f.name = true ∧ f.mtime > T ∧
        sid = replaceFirstL jsonlExt f.name ∧
        ∀ g ∈ files, endsWithL jsonlExt g.name = true → g.mtime > T →
          g.mtime ≤ f.mtime) ∧
    (∀ (files : List LogFile) (T : Int),
      (∀ f ∈ files, endsWithL jsonlExt f.name = true → f.mtime ≤ T) →
      findClaudeSessionAfter (some files) T = none) := by
  refine ⟨?_, ?_, ?_, ?_, ?_, fun T => rfl, ?_, ?_⟩
  · unfold captureClaudeSessionId
    by_cases hg : (world 0).termAlive.isSome = true
    · rw [if_pos hg]
      exact captureGoT_length world startTime maxAttempts 0 (startTime + 2000)
        (by omega)
    · rw [if_neg hg]
      simp
  · intro i r hr
    unfold captureClaudeSessionId at hr
    by_cases hg : (world 0).termAlive.isSome = true
    · rw [if_pos hg] at hr
      have := captureGoT_get world startTime maxAttempts 0 (startTime + 2000)
        (by omega) i r hr
      refine ⟨by simpa using this.1, by rw [this.2.1], by simpa using this.2.2⟩
    · rw [if_neg hg] at hr
      cases hr
  · intro i r r' hr hr'
    unfold captureClaudeSessionId at hr hr'
    by_cases hg : (world 0).termAlive.isSome = true
    · rw [if_pos hg] at hr hr'
      exact captureGoT_consec world startTime maxAttempts 0 (startTime + 2000)
        (by omega) i r r' hr hr'
    · rw [if_neg hg] at hr
      cases hr
  · intro hg hall
    unfold captureClaudeSessionId
    rw [if_pos hg]
    exact captureGoT_all_notFound world startTime hall maxAttempts 0
      (startTime + 2000) rfl
  · intro w t
    refine ⟨?_, ?_, ?_, ?_⟩
    · intro h; unfold captureStep; rw [h]
    · intro sid h; unfold captureStep; rw [h]; rfl
    · intro s h; unfold captureStep; rw [h]; rfl
    · intro h; unfold captureStep; rw [h]; rfl
  · intro files T sid h
    exact findClaudeSessionAfter_some files T sid h
  · intro files T hall
    exact findClaudeSessionAfter_none files T hall

/-- Witness for claim C6 at a concrete world whose directory stays empty:
the trace has exactly ten probes, all not-found. -/
theorem c6_capture_protocol_witness :
    (captureClaudeSessionId sampleWorld 0).length ≤ maxAttempts ∧
    (captureClaudeSessionId sampleWorld 0).length = maxAttempts :=
  ⟨(c6_capture_protocol sampleWorld 0).1,
   ((c6_capture_protocol sampleWorld 0).2.2.2.1 rfl (fun _ => rfl)).1⟩

/-- Witness for the amended claim C8 at the sample state. -/
theorem c8_killAll_behaviour_witness :
    getSession (killAll sampleState 7 (fun _ => false)).store "/p" "t1"
      = some (sessionSnapshot sampleTerminal "/p" 7) ∧
    (killAll sampleState 7 (fun _ => false)).rateLimitNotifiedAt
      = sampleState.rateLimitNotifiedAt :=
  ⟨(c8_killAll_behaviour sampleState 7 (fun _ => false) (by simp [sampleState])).1
      sampleTerminal (by simp [sampleState]) "/p" rfl,
   (c8_killAll_behaviour sampleState 7 (fun _ => false) (by simp [sampleState])).2.2.2.2⟩

end AutoClaude
